import Mathlib

/-!
Shallow embedding of the Quantum-Sudoku-Solver repository
(`src/grover_utils.py` and `src/sudoku_solver.py`).

A circuit is modelled as its declared register sizes together with the
ordered list of gate operations appended to it.  Qiskit's circuit-building
methods raise on an out-of-range or repeated index, which the embedding
renders as `Option`: `none` is the raised exception.  The simulator's
per-shot nondeterminism is abstracted as an explicit list of sampled
4-bit outcomes handed to `solve_sudoku`; the tallying (`get_counts`) is
modelled exactly as counting occurrences of each distinct key.
-/

namespace QuantumSudoku

/-- A Python value that may appear in a puzzle list.  The repository's
puzzles hold ints, but `initialize_sudoku_state` accepts any list. -/
inductive PyVal where
  | int (n : Int)
  | bool (b : Bool)
  | str (s : String)
deriving DecidableEq, Repr

/-- Python's `value == 1` test, as used in `initialize_sudoku_state`
(line 26 of `sudoku_solver.py`).  In Python `1 == 1` and `True == 1`
hold; no string compares equal to `1`. -/
def pyEqOne : PyVal → Bool
  | .int n => n == 1
  | .bool b => b
  | .str _ => false

/-- One gate operation, as appended by the circuit-building calls the
repository makes: `h`, `x`, `cz`, `mcx` and `measure`. -/
inductive Gate where
  | h (q : Nat)
  | x (q : Nat)
  | cz (a b : Nat)
  | mcx (controls : List Nat) (target : Nat)
  | measure (q c : Nat)
deriving DecidableEq, Repr

/-- A circuit: declared qubit count, declared classical-bit count, and
the ordered list of gates appended so far. -/
structure QuantumCircuit where
  numQubits : Nat
  numClbits : Nat
  gates : List Gate
deriving DecidableEq, Repr

/-- `circuit.h(q)`: append a Hadamard gate; raises on a bad index. -/
def QuantumCircuit.h (c : QuantumCircuit) (q : Nat) : Option QuantumCircuit :=
  if q < c.numQubits then some { c with gates := c.gates ++ [Gate.h q] } else none

/-- `circuit.x(q)`: append an X gate; raises on a bad index. -/
def QuantumCircuit.x (c : QuantumCircuit) (q : Nat) : Option QuantumCircuit :=
  if q < c.numQubits then some { c with gates := c.gates ++ [Gate.x q] } else none

/-- `circuit.cz(a, b)`: append a controlled-Z gate; raises on a bad or
repeated index. -/
def QuantumCircuit.cz (c : QuantumCircuit) (a b : Nat) : Option QuantumCircuit :=
  if a < c.numQubits ∧ b < c.numQubits ∧ a ≠ b then
    some { c with gates := c.gates ++ [Gate.cz a b] }
  else none

/-- `circuit.mcx(controls, target)`: append a multi-controlled X gate;
raises on a bad or repeated index. -/
def QuantumCircuit.mcx (c : QuantumCircuit) (controls : List Nat) (target : Nat) :
    Option QuantumCircuit :=
  if (∀ q ∈ controls, q < c.numQubits) ∧ target < c.numQubits ∧
      target ∉ controls ∧ controls.Nodup then
    some { c with gates := c.gates ++ [Gate.mcx controls target] }
  else none

/-- `circuit.measure(q, cl)`: append a measurement of qubit `q` into
classical bit `cl`. -/
def QuantumCircuit.measure (c : QuantumCircuit) (q cl : Nat) : Option QuantumCircuit :=
  if q < c.numQubits ∧ cl < c.numClbits then
    some { c with gates := c.gates ++ [Gate.measure q cl] }
  else none

/-- `circuit.h(qs)` on a whole list of qubits (Qiskit broadcasts `h`
over a register or a `range`). -/
def QuantumCircuit.hMany : QuantumCircuit → List Nat → Option QuantumCircuit
  | c, [] => some c
  | c, q :: qs => (c.h q).bind fun c2 => c2.hMany qs

/-- `circuit.x(qs)` on a whole list of qubits. -/
def QuantumCircuit.xMany : QuantumCircuit → List Nat → Option QuantumCircuit
  | c, [] => some c
  | c, q :: qs => (c.x q).bind fun c2 => c2.xMany qs

/-- `circuit.measure(qr, cr)`: measure the listed qubits into the listed
classical bits, pairwise. -/
def QuantumCircuit.measureMany : QuantumCircuit → List Nat → List Nat → Option QuantumCircuit
  | c, [], [] => some c
  | c, q :: qs, cl :: cls => (c.measure q cl).bind fun c2 => c2.measureMany qs cls
  | _, _, _ => none

/-- `circuit.compose(other, inplace=True)`: append the other circuit's
gates; requires the other circuit to fit in this one's registers. -/
def QuantumCircuit.compose (self other : QuantumCircuit) : Option QuantumCircuit :=
  if other.numQubits ≤ self.numQubits ∧ other.numClbits ≤ self.numClbits then
    some { self with gates := self.gates ++ other.gates }
  else none

/-- `construct_oracle` from `grover_utils.py`: a 4-qubit circuit with
`cz(0,1)` then `cz(2,3)`. -/
def construct_oracle : Option QuantumCircuit :=
  ((QuantumCircuit.mk 4 0 []).cz 0 1).bind fun oracle => oracle.cz 2 3

/-- `diffusion_operator` from `grover_utils.py`: h on all qubits, x on
all qubits, h on the last, `mcx` of the last qubit controlled by all
others, h on the last, x on all, h on all. -/
def diffusion_operator (num_qubits : Nat) : Option QuantumCircuit :=
  ((QuantumCircuit.mk num_qubits 0 []).hMany (List.range num_qubits)).bind fun d1 =>
  (d1.xMany (List.range num_qubits)).bind fun d2 =>
  (d2.h (num_qubits - 1)).bind fun d3 =>
  (d3.mcx (List.range (num_qubits - 1)) (num_qubits - 1)).bind fun d4 =>
  (d4.h (num_qubits - 1)).bind fun d5 =>
  (d5.xMany (List.range num_qubits)).bind fun d6 =>
  d6.hMany (List.range num_qubits)

/-- The loop `for i, value in enumerate(puzzle): if value == 1: circuit.x(qr[i])`
of `initialize_sudoku_state`, with `i` the running index. -/
def initLoop : QuantumCircuit → Nat → List PyVal → Option QuantumCircuit
  | c, _, [] => some c
  | c, i, v :: rest =>
    if pyEqOne v then (c.x i).bind fun c2 => initLoop c2 (i + 1) rest
    else initLoop c (i + 1) rest

/-- `initialize_sudoku_state` from `sudoku_solver.py`: a 4-qubit circuit
with an X gate on qubit `i` for each position `i` whose value equals 1. -/
def initialize_sudoku_state (puzzle : List PyVal) : Option QuantumCircuit :=
  initLoop (QuantumCircuit.mk 4 0 []) 0 puzzle

/-- The character a measured bit renders to in a counts key. -/
def bitChar (b : Bool) : Char := if b then '1' else '0'

/-- Qiskit's counts key for a measured 4-bit outcome: classical bits
printed most-significant first. -/
def outcomeString (s : Fin 16) : String :=
  String.mk (((List.range 4).reverse).map fun q => bitChar (s.val.testBit q))

/-- `result.get_counts()`: tally how many samples produced each distinct
key. -/
def tallyCounts (samples : List String) : List (String × Nat) :=
  samples.dedup.map fun k => (k, samples.count k)

/-- The circuit `solve_sudoku` builds: 4 qubits and 4 classical bits,
the initialization circuit composed first, then h on all qubits, then
the oracle, then the diffusion operator on `len(qr) = 4` qubits, then
measurement of every qubit. -/
def solve_sudoku_circuit (puzzle : List PyVal) : Option QuantumCircuit :=
  (initialize_sudoku_state puzzle).bind fun init_circuit =>
  ((QuantumCircuit.mk 4 4 []).compose init_circuit).bind fun c1 =>
  (c1.hMany (List.range 4)).bind fun c2 =>
  construct_oracle.bind fun oracle =>
  (c2.compose oracle).bind fun c3 =>
  (diffusion_operator 4).bind fun diffusion =>
  (c3.compose diffusion).bind fun c4 =>
  c4.measureMany (List.range 4) (List.range 4)

/-- `solve_sudoku` from `sudoku_solver.py`: build the circuit, execute
it for the shots recorded in `samples`, and return the tally.  The
simulator's randomness is abstracted as the sampled outcome list. -/
def solve_sudoku (puzzle : List PyVal) (samples : List (Fin 16)) :
    Option (List (String × Nat)) :=
  (solve_sudoku_circuit puzzle).map fun _ => tallyCounts (samples.map outcomeString)

/-- Action of one gate on a computational basis state (a 4-bit index),
when the gate maps basis states to basis states: the new basis state and
the acquired phase (±1).  `h` is not basis-preserving, and `measure` is
not unitary, so those return `none`. -/
def applyGateBasis : Gate → Nat → Option (Nat × Int)
  | .h _, _ => none
  | .x q, s => some (s ^^^ (1 <<< q), 1)
  | .cz a b, s => some (s, if s.testBit a && s.testBit b then -1 else 1)
  | .mcx ctrls t, s => some (if ctrls.all s.testBit then s ^^^ (1 <<< t) else s, 1)
  | .measure _ _, _ => none

/-- Action of a gate list on a basis state with an accumulated phase. -/
def applyGatesBasis : List Gate → Nat × Int → Option (Nat × Int)
  | [], sp => some sp
  | g :: gs, (s, ph) =>
    (applyGateBasis g s).bind fun r => applyGatesBasis gs (r.1, ph * r.2)

/-- The controls of a gate when it is an `mcx`, else `none`. -/
def mcxControls : Gate → Option (List Nat)
  | .mcx ctrls _ => some ctrls
  | _ => none

/-- The X gates `initialize_sudoku_state` emits: one on qubit `i` for
each position `i` of the puzzle whose value equals 1. -/
def initGates (puzzle : List PyVal) : List Gate :=
  (puzzle.enum.filter fun p => pyEqOne p.2).map fun p => Gate.x p.1

/-- The gate sequence of `diffusion_operator` on `N` qubits. -/
def diffusionGates (N : Nat) : List Gate :=
  ((List.range N).map Gate.h) ++ ((List.range N).map Gate.x) ++ [Gate.h (N - 1)] ++
  [Gate.mcx (List.range (N - 1)) (N - 1)] ++ [Gate.h (N - 1)] ++
  ((List.range N).map Gate.x) ++ ((List.range N).map Gate.h)

lemma h_eq (c : QuantumCircuit) (q : Nat) (hq : q < c.numQubits) :
    c.h q = some { c with gates := c.gates ++ [Gate.h q] } := by
  simp [QuantumCircuit.h, hq]

lemma x_eq (c : QuantumCircuit) (q : Nat) (hq : q < c.numQubits) :
    c.x q = some { c with gates := c.gates ++ [Gate.x q] } := by
  simp [QuantumCircuit.x, hq]

lemma mcx_eq (c : QuantumCircuit) (ctrls : List Nat) (t : Nat)
    (h1 : ∀ q ∈ ctrls, q < c.numQubits) (h2 : t < c.numQubits)
    (h3 : t ∉ ctrls) (h4 : ctrls.Nodup) :
    c.mcx ctrls t = some { c with gates := c.gates ++ [Gate.mcx ctrls t] } := by
  unfold QuantumCircuit.mcx
  rw [if_pos ⟨h1, h2, h3, h4⟩]

lemma compose_eq (self other : QuantumCircuit)
    (h1 : other.numQubits ≤ self.numQubits) (h2 : other.numClbits ≤ self.numClbits) :
    self.compose other = some { self with gates := self.gates ++ other.gates } := by
  simp [QuantumCircuit.compose, h1, h2]

lemma hMany_eq (qs : List Nat) : ∀ c : QuantumCircuit, (∀ q ∈ qs, q < c.numQubits) →
    c.hMany qs = some { c with gates := c.gates ++ qs.map Gate.h } := by
  induction qs with
  | nil => intro c _; simp [QuantumCircuit.hMany]
  | cons q qs ih =>
    intro c h
    rw [QuantumCircuit.hMany, h_eq c q (h q (by simp))]
    rw [Option.some_bind,
      ih { c with gates := c.gates ++ [Gate.h q] } (fun r hr => h r (by simp [hr]))]
    simp

lemma xMany_eq (qs : List Nat) : ∀ c : QuantumCircuit, (∀ q ∈ qs, q < c.numQubits) →
    c.xMany qs = some { c with gates := c.gates ++ qs.map Gate.x } := by
  induction qs with
  | nil => intro c _; simp [QuantumCircuit.xMany]
  | cons q qs ih =>
    intro c h
    rw [QuantumCircuit.xMany, x_eq c q (h q (by simp))]
    rw [Option.some_bind,
      ih { c with gates := c.gates ++ [Gate.x q] } (fun r hr => h r (by simp [hr]))]
    simp

lemma measureMany_range4 (c : QuantumCircuit) (h1 : c.numQubits = 4) (h2 : c.numClbits = 4) :
    c.measureMany (List.range 4) (List.range 4) =
      some { c with gates := c.gates ++
        [Gate.measure 0 0, Gate.measure 1 1, Gate.measure 2 2, Gate.measure 3 3] } := by
  have e : List.range 4 = [0, 1, 2, 3] := rfl
  rw [e]
  simp [QuantumCircuit.measureMany, QuantumCircuit.measure, h1, h2]

lemma construct_oracle_eq :
    construct_oracle = some (QuantumCircuit.mk 4 0 [Gate.cz 0 1, Gate.cz 2 3]) := by
  decide

lemma diffusion_operator_eq (N : Nat) (hN : 1 ≤ N) :
    diffusion_operator N = some (QuantumCircuit.mk N 0 (diffusionGates N)) := by
  have hsub : N - 1 < N := by omega
  unfold diffusion_operator
  rw [hMany_eq _ _ (fun q hq => List.mem_range.mp hq), Option.some_bind]
  rw [xMany_eq _ _ (fun q hq => List.mem_range.mp hq), Option.some_bind]
  rw [h_eq _ (N - 1) hsub, Option.some_bind]
  rw [mcx_eq _ (List.range (N - 1)) (N - 1)
    (fun q hq => Nat.lt_trans (List.mem_range.mp hq) hsub) hsub
    List.not_mem_range_self (List.nodup_range (N - 1)), Option.some_bind]
  rw [h_eq _ (N - 1) hsub, Option.some_bind]
  rw [xMany_eq _ _ (fun q hq => List.mem_range.mp hq), Option.some_bind]
  rw [hMany_eq _ _ (fun q hq => List.mem_range.mp hq)]
  simp [diffusionGates, List.append_assoc]

lemma initLoop_eq (pz : List PyVal) : ∀ (c : QuantumCircuit) (i : Nat),
    i + pz.length ≤ c.numQubits →
    initLoop c i pz = some { c with gates := c.gates ++
      ((List.enumFrom i pz).filter fun p => pyEqOne p.2).map fun p => Gate.x p.1 } := by
  induction pz with
  | nil => intro c i _; simp [initLoop]
  | cons v rest ih =>
    intro c i h
    simp only [initLoop, List.enumFrom]
    by_cases hv : pyEqOne v
    · rw [if_pos hv, x_eq c i (by simp at h; omega), Option.some_bind]
      rw [ih _ (i + 1) (by simp at h ⊢; omega)]
      simp [hv, List.append_assoc]
    · rw [if_neg hv, ih _ (i + 1) (by simp at h ⊢; omega)]
      simp [hv]

lemma initLoop_gates (pz : List PyVal) : ∀ (c c' : QuantumCircuit) (i : Nat),
    initLoop c i pz = some c' →
    c'.gates = c.gates ++
      ((List.enumFrom i pz).filter fun p => pyEqOne p.2).map fun p => Gate.x p.1 := by
  induction pz with
  | nil =>
    intro c c' i h
    simp only [initLoop, Option.some.injEq] at h
    subst h; simp
  | cons v rest ih =>
    intro c c' i h
    simp only [initLoop, List.enumFrom] at h ⊢
    by_cases hv : pyEqOne v
    · rw [if_pos hv] at h
      cases hx : c.x i with
      | none => rw [hx] at h; simp at h
      | some c2 =>
        rw [hx, Option.some_bind] at h
        have hc2 : c2.gates = c.gates ++ [Gate.x i] := by
          simp only [QuantumCircuit.x] at hx
          split at hx
          · cases hx; rfl
          · simp at hx
        rw [ih c2 c' (i + 1) h, hc2]
        simp [hv, List.append_assoc]
    · rw [if_neg hv] at h
      rw [ih c c' (i + 1) h]
      simp [hv]

lemma initLoop_none (pz : List PyVal) : ∀ (c : QuantumCircuit) (i j : Nat)
    (hj : j < pz.length), pyEqOne pz[j] = true → c.numQubits ≤ i + j →
    initLoop c i pz = none := by
  induction pz with
  | nil => intro c i j hj; simp at hj
  | cons v rest ih =>
    intro c i j hj hone hle
    simp only [initLoop]
    cases j with
    | zero =>
      simp only [List.getElem_cons_zero] at hone
      rw [if_pos hone]
      have : c.x i = none := by
        simp [QuantumCircuit.x, Nat.not_lt.mpr (by omega : c.numQubits ≤ i)]
      rw [this, Option.none_bind]
    | succ j2 =>
      simp only [List.getElem_cons_succ] at hone
      by_cases hv : pyEqOne v
      · rw [if_pos hv]
        by_cases hi : i < c.numQubits
        · rw [x_eq c i hi, Option.some_bind]
          exact ih _ (i + 1) j2 (by simpa using hj) hone (by simp; omega)
        · simp [QuantumCircuit.x, hi]
      · rw [if_neg hv]
        exact ih c (i + 1) j2 (by simpa using hj) hone (by omega)

lemma initialize_eq (puzzle : List PyVal) (hlen : puzzle.length ≤ 4) :
    initialize_sudoku_state puzzle = some (QuantumCircuit.mk 4 0 (initGates puzzle)) := by
  unfold initialize_sudoku_state
  rw [initLoop_eq puzzle _ 0 (by simpa using hlen)]
  simp [initGates, List.enum]

lemma solve_circuit_eq (puzzle : List PyVal) (hlen : puzzle.length ≤ 4) :
    solve_sudoku_circuit puzzle = some (QuantumCircuit.mk 4 4 (
      initGates puzzle ++ (List.range 4).map Gate.h ++ [Gate.cz 0 1, Gate.cz 2 3] ++
      diffusionGates 4 ++
      [Gate.measure 0 0, Gate.measure 1 1, Gate.measure 2 2, Gate.measure 3 3])) := by
  unfold solve_sudoku_circuit
  rw [initialize_eq puzzle hlen, Option.some_bind]
  rw [compose_eq _ _ (Nat.le_refl 4) (by simp), Option.some_bind]
  rw [hMany_eq _ _ (fun q hq => List.mem_range.mp hq), Option.some_bind]
  rw [construct_oracle_eq, Option.some_bind]
  rw [compose_eq _ _ (Nat.le_refl 4) (by simp), Option.some_bind]
  rw [diffusion_operator_eq 4 (by omega), Option.some_bind]
  rw [compose_eq _ _ (Nat.le_refl 4) (by simp), Option.some_bind]
  rw [measureMany_range4 _ rfl rfl]
  simp [List.append_assoc]

lemma sum_map_add {α : Type} (L : List α) (f g : α → Nat) :
    (L.map fun y => f y + g y).sum = (L.map f).sum + (L.map g).sum := by
  induction L with
  | nil => simp
  | cons b t ih => simp [ih]; omega

section Counting

variable {α : Type} [DecidableEq α]

lemma sum_map_indicator (L : List α) (a : α) :
    (L.map fun y => if a = y then 1 else 0).sum = L.count a := by
  induction L with
  | nil => simp
  | cons b t ih =>
    simp only [List.map_cons, List.sum_cons, List.count_cons, ih, beq_iff_eq]
    by_cases hb : a = b
    · simp [hb, Nat.add_comm]
    · simp [hb, Ne.symm hb]

lemma sum_dedup_count (l : List α) :
    (l.dedup.map fun a => l.count a).sum = l.length := by
  induction l with
  | nil => simp
  | cons a t ih =>
    by_cases h : a ∈ t
    · rw [List.dedup_cons_of_mem h]
      have hmap : (t.dedup.map fun y => (a :: t).count y) =
          t.dedup.map fun y => t.count y + if a = y then 1 else 0 := by
        simp [List.count_cons]
      rw [hmap, sum_map_add, ih, sum_map_indicator, List.count_dedup]
      simp [h]
    · rw [List.dedup_cons_of_not_mem h]
      simp only [List.map_cons, List.sum_cons]
      have hone : (a :: t).count a = 1 := by
        simp [List.count_cons, List.count_eq_zero_of_not_mem h]
      have hmap : (t.dedup.map fun y => (a :: t).count y) =
          t.dedup.map fun y => t.count y := by
        apply List.map_congr_left
        intro y hy
        have hyt : y ∈ t := List.mem_dedup.mp hy
        have hne : a ≠ y := fun he => h (he ▸ hyt)
        simp [List.count_cons, hne]
      rw [hone, hmap, ih]
      simp [Nat.add_comm]

end Counting

lemma tallyCounts_sum (samples : List String) :
    ((tallyCounts samples).map Prod.snd).sum = samples.length := by
  unfold tallyCounts
  rw [List.map_map]
  exact sum_dedup_count samples

lemma tallyCounts_keys (samples : List String) :
    ∀ p ∈ tallyCounts samples, p.1 ∈ samples := by
  intro p hp
  unfold tallyCounts at hp
  obtain ⟨k, hk, he⟩ := List.mem_map.mp hp
  rw [← he]
  exact List.mem_dedup.mp hk

lemma outcomeString_shape : ∀ s : Fin 16,
    (outcomeString s).length = 4 ∧ ∀ ch ∈ (outcomeString s).data, ch = '0' ∨ ch = '1' := by
  decide

lemma solve_sudoku_spec (puzzle : List PyVal) (samples : List (Fin 16))
    (hlen : puzzle.length ≤ 4) :
    solve_sudoku puzzle samples = some (tallyCounts (samples.map outcomeString)) ∧
    ((tallyCounts (samples.map outcomeString)).map Prod.snd).sum = samples.length ∧
    ∀ p ∈ tallyCounts (samples.map outcomeString),
      p.1.length = 4 ∧ ∀ ch ∈ p.1.data, ch = '0' ∨ ch = '1' := by
  refine ⟨?_, ?_, ?_⟩
  · unfold solve_sudoku
    rw [solve_circuit_eq puzzle hlen]
    rfl
  · rw [tallyCounts_sum, List.length_map]
  · intro p hp
    obtain ⟨s, hs, he⟩ := List.mem_map.mp (tallyCounts_keys _ p hp)
    rw [← he]
    exact outcomeString_shape s

lemma cz_basis (a b s : Nat) :
    ∃ ph : Int, applyGateBasis (Gate.cz a b) s = some (s, ph) ∧
      (ph = 1 ∨ ph = -1) ∧ (ph = -1 ↔ (s.testBit a ∧ s.testBit b)) := by
  by_cases hc : (s.testBit a && s.testBit b) = true
  · refine ⟨-1, by simp [applyGateBasis, hc], Or.inr rfl, ?_⟩
    rw [Bool.and_eq_true] at hc
    simp [hc.1, hc.2]
  · refine ⟨1, by simp [applyGateBasis, hc], Or.inl rfl, ?_⟩
    rw [Bool.and_eq_true] at hc
    constructor
    · intro h; exact absurd h (by decide)
    · intro h; exact absurd ⟨h.1, h.2⟩ hc

lemma snd_mem_of_mem_enumFrom {α : Type} :
    ∀ (l : List α) (i : Nat) (p : Nat × α), p ∈ List.enumFrom i l → p.2 ∈ l := by
  intro l
  induction l with
  | nil => intro i p h; simp [List.enumFrom] at h
  | cons v rest ih =>
    intro i p h
    simp only [List.enumFrom, List.mem_cons] at h
    rcases h with h | h
    · subst h; simp
    · exact List.mem_cons_of_mem v (ih (i + 1) p h)

/-- C1: for every valid length-4 0/1 puzzle, `solve_sudoku` returns a
tally whose counts sum exactly to the 1024 recorded shots and whose keys
are strings of exactly 4 characters, each `'0'` or `'1'`. -/
theorem solve_sudoku_counts_spec (puzzle : List PyVal) (samples : List (Fin 16))
    (hlen : puzzle.length = 4)
    (hvals : ∀ v ∈ puzzle, v = PyVal.int 0 ∨ v = PyVal.int 1)
    (hshots : samples.length = 1024) :
    ∃ counts, solve_sudoku puzzle samples = some counts ∧
      (counts.map Prod.snd).sum = 1024 ∧
      ∀ p ∈ counts, p.1.length = 4 ∧ ∀ ch ∈ p.1.data, ch = '0' ∨ ch = '1' := by
  obtain ⟨h1, h2, h3⟩ := solve_sudoku_spec puzzle samples (le_of_eq hlen)
  exact ⟨_, h1, by rw [h2, hshots], h3⟩

/-- Witness for C1 at puzzle `[1,0,0,0]` and 1024 identical samples. -/
theorem solve_sudoku_counts_spec_witness :
    ∃ counts, solve_sudoku [PyVal.int 1, PyVal.int 0, PyVal.int 0, PyVal.int 0]
        (List.replicate 1024 (0 : Fin 16)) = some counts ∧
      (counts.map Prod.snd).sum = 1024 ∧
      ∀ p ∈ counts, p.1.length = 4 ∧ ∀ ch ∈ p.1.data, ch = '0' ∨ ch = '1' :=
  solve_sudoku_counts_spec _ _ (by decide) (by decide) (List.length_replicate 1024 0)

/-- C2: `construct_oracle` returns a circuit over exactly 4 qubits whose
operations are exactly `cz 0 1` then `cz 2 3`; on every computational
basis state each of the two gates keeps the state (hence the amplitude's
magnitude) and acquires phase ±1, with phase −1 exactly when both of its
coupled qubits read 1. -/
theorem construct_oracle_spec :
    construct_oracle = some (QuantumCircuit.mk 4 0 [Gate.cz 0 1, Gate.cz 2 3]) ∧
    ∀ s : Fin 16,
      (∃ ph : Int, applyGateBasis (Gate.cz 0 1) s.val = some (s.val, ph) ∧
        (ph = 1 ∨ ph = -1) ∧ (ph = -1 ↔ (s.val.testBit 0 ∧ s.val.testBit 1))) ∧
      (∃ ph : Int, applyGateBasis (Gate.cz 2 3) s.val = some (s.val, ph) ∧
        (ph = 1 ∨ ph = -1) ∧ (ph = -1 ↔ (s.val.testBit 2 ∧ s.val.testBit 3))) :=
  ⟨construct_oracle_eq, fun s => ⟨cz_basis 0 1 s.val, cz_basis 2 3 s.val⟩⟩

/-- C3: for every `N ≥ 1`, `diffusion_operator N` returns a circuit over
`N` qubits whose gate list is exactly: h on every qubit, x on every
qubit, h on the last qubit, one flip of the last qubit controlled on the
other `N − 1` qubits, h on the last qubit, x on every qubit, h on every
qubit, in that order. -/
theorem diffusion_operator_gate_sequence (N : Nat) (hN : 1 ≤ N) :
    diffusion_operator N = some (QuantumCircuit.mk N 0 (
      ((List.range N).map Gate.h) ++ ((List.range N).map Gate.x) ++ [Gate.h (N - 1)] ++
      [Gate.mcx (List.range (N - 1)) (N - 1)] ++ [Gate.h (N - 1)] ++
      ((List.range N).map Gate.x) ++ ((List.range N).map Gate.h))) :=
  diffusion_operator_eq N hN

/-- Witness for C3 at `N = 4`. -/
theorem diffusion_operator_gate_sequence_witness :
    1 ≤ 4 ∧ diffusion_operator 4 = some (QuantumCircuit.mk 4 0 (
      ((List.range 4).map Gate.h) ++ ((List.range 4).map Gate.x) ++ [Gate.h (4 - 1)] ++
      [Gate.mcx (List.range (4 - 1)) (4 - 1)] ++ [Gate.h (4 - 1)] ++
      ((List.range 4).map Gate.x) ++ ((List.range 4).map Gate.h))) :=
  ⟨by decide, diffusion_operator_gate_sequence 4 (by decide)⟩

/-- C4: `solve_sudoku` builds its circuit in exactly this order: the
initialization circuit first, then h on all 4 qubits, then the oracle,
then the diffusion circuit for `N = 4`, then measurement of the 4 qubits
into the 4 classical bits. -/
theorem solve_sudoku_compose_order (puzzle : List PyVal)
    (hlen : puzzle.length = 4)
    (hvals : ∀ v ∈ puzzle, v = PyVal.int 0 ∨ v = PyVal.int 1) :
    ∃ ic oc dc, initialize_sudoku_state puzzle = some ic ∧
      construct_oracle = some oc ∧ diffusion_operator 4 = some dc ∧
      solve_sudoku_circuit puzzle = some (QuantumCircuit.mk 4 4
        (ic.gates ++ (List.range 4).map Gate.h ++ oc.gates ++ dc.gates ++
          [Gate.measure 0 0, Gate.measure 1 1, Gate.measure 2 2, Gate.measure 3 3])) := by
  refine ⟨_, _, _, initialize_eq puzzle (le_of_eq hlen), construct_oracle_eq,
    diffusion_operator_eq 4 (by omega), ?_⟩
  rw [solve_circuit_eq puzzle (le_of_eq hlen)]

/-- Witness for C4 at puzzle `[1,0,0,0]`. -/
theorem solve_sudoku_compose_order_witness :
    ∃ ic oc dc,
      initialize_sudoku_state [PyVal.int 1, PyVal.int 0, PyVal.int 0, PyVal.int 0] = some ic ∧
      construct_oracle = some oc ∧ diffusion_operator 4 = some dc ∧
      solve_sudoku_circuit [PyVal.int 1, PyVal.int 0, PyVal.int 0, PyVal.int 0] =
        some (QuantumCircuit.mk 4 4
          (ic.gates ++ (List.range 4).map Gate.h ++ oc.gates ++ dc.gates ++
            [Gate.measure 0 0, Gate.measure 1 1, Gate.measure 2 2, Gate.measure 3 3])) :=
  solve_sudoku_compose_order _ (by decide) (by decide)

/-- C5: the oracle circuit applied twice acts as the identity on every
computational basis state — here even with overall phase exactly 1. -/
theorem oracle_twice_identity :
    ∀ s : Fin 16,
      construct_oracle.bind (fun oc => applyGatesBasis (oc.gates ++ oc.gates) (s.val, 1)) =
        some (s.val, 1) := by
  decide

/-- C6: for every length-4 0/1 puzzle, `initialize_sudoku_state` returns
a 4-qubit circuit whose gates are exactly one X on qubit `i` for each
position `i` whose flag is 1 (positions with flag 0 contribute no gate);
for the all-zero puzzle the circuit has no gates. -/
theorem initialize_sudoku_state_gates (puzzle : List PyVal)
    (hlen : puzzle.length = 4)
    (hvals : ∀ v ∈ puzzle, v = PyVal.int 0 ∨ v = PyVal.int 1) :
    ∃ c, initialize_sudoku_state puzzle = some c ∧ c.numQubits = 4 ∧
      c.gates = ((puzzle.enum.filter fun p => pyEqOne p.2).map fun p => Gate.x p.1) ∧
      ((∀ v ∈ puzzle, v = PyVal.int 0) → c.gates = []) := by
  refine ⟨_, initialize_eq puzzle (le_of_eq hlen), rfl, rfl, ?_⟩
  intro h0
  show initGates puzzle = []
  unfold initGates
  have hfil : puzzle.enum.filter (fun p => pyEqOne p.2) = [] := by
    rw [List.filter_eq_nil_iff]
    intro p hp
    have hv := h0 p.2 (snd_mem_of_mem_enumFrom puzzle 0 p hp)
    rw [hv]
    decide
  rw [hfil]
  rfl

/-- Witness for C6 at the all-zero puzzle. -/
theorem initialize_sudoku_state_gates_witness :
    ∃ c, initialize_sudoku_state
        [PyVal.int 0, PyVal.int 0, PyVal.int 0, PyVal.int 0] = some c ∧
      c.numQubits = 4 ∧
      c.gates = ((([PyVal.int 0, PyVal.int 0, PyVal.int 0, PyVal.int 0] :
          List PyVal).enum.filter fun p => pyEqOne p.2).map fun p => Gate.x p.1) ∧
      ((∀ v ∈ [PyVal.int 0, PyVal.int 0, PyVal.int 0, PyVal.int 0], v = PyVal.int 0) →
        c.gates = []) :=
  initialize_sudoku_state_gates _ (by decide) (by decide)

/-- C7: `diffusion_operator 1` returns a circuit whose conditional-flip
gate has an empty control list — no multi-control dependency. -/
theorem diffusion_operator_one_no_controls :
    diffusion_operator 1 = some (QuantumCircuit.mk 1 0
      [Gate.h 0, Gate.x 0, Gate.h 0, Gate.mcx [] 0, Gate.h 0, Gate.x 0, Gate.h 0]) ∧
    ∀ g ∈ [Gate.h 0, Gate.x 0, Gate.h 0, Gate.mcx [] 0, Gate.h 0, Gate.x 0, Gate.h 0],
      mcxControls g = none ∨ mcxControls g = some [] := by
  decide

/-- Counterexample to C8 as stated: the length-5 all-zero puzzle never
evaluates `qr[i]` at an out-of-range index (the X branch is only taken
when a value equals 1), so `initialize_sudoku_state` and `solve_sudoku`
both return a result instead of failing. -/
theorem length5_zero_puzzle_returns_circuit :
    initialize_sudoku_state
        [PyVal.int 0, PyVal.int 0, PyVal.int 0, PyVal.int 0, PyVal.int 0] =
      some (QuantumCircuit.mk 4 0 []) ∧
    (solve_sudoku [PyVal.int 0, PyVal.int 0, PyVal.int 0, PyVal.int 0, PyVal.int 0]
        []).isSome = true := by
  decide

/-- C8 (amended): for every puzzle in which some position at index ≥ 4
holds a value equal to 1, `initialize_sudoku_state` — and hence
`solve_sudoku` — fails with the out-of-range index error rather than
returning a circuit. -/
theorem initialize_out_of_range_fails (puzzle : List PyVal) (k : Nat)
    (hk : 4 ≤ k) (hklen : k < puzzle.length) (hone : pyEqOne puzzle[k] = true) :
    initialize_sudoku_state puzzle = none ∧
    ∀ samples, solve_sudoku puzzle samples = none := by
  have h : initialize_sudoku_state puzzle = none :=
    initLoop_none puzzle (QuantumCircuit.mk 4 0 []) 0 k hklen hone
      (by show 4 ≤ 0 + k; omega)
  refine ⟨h, fun samples => ?_⟩
  unfold solve_sudoku solve_sudoku_circuit
  rw [h, Option.none_bind]
  rfl

/-- Witness for C8 (amended) at the length-5 puzzle `[0,0,0,0,1]`. -/
theorem initialize_out_of_range_fails_witness :
    initialize_sudoku_state
        [PyVal.int 0, PyVal.int 0, PyVal.int 0, PyVal.int 0, PyVal.int 1] = none ∧
    ∀ samples, solve_sudoku
        [PyVal.int 0, PyVal.int 0, PyVal.int 0, PyVal.int 0, PyVal.int 1] samples = none :=
  initialize_out_of_range_fails _ 4 (by decide) (by decide) (by decide)

/-- C9: two successive calls of `solve_sudoku` on the same valid puzzle
both succeed and each tally independently sums to the 1024 shots; the
embedding is a pure function of the puzzle and the sampled outcomes, so
no state carries over from the first call to the second. -/
theorem solve_sudoku_twice_independent (puzzle : List PyVal)
    (s1 s2 : List (Fin 16))
    (hlen : puzzle.length = 4)
    (hvals : ∀ v ∈ puzzle, v = PyVal.int 0 ∨ v = PyVal.int 1)
    (h1 : s1.length = 1024) (h2 : s2.length = 1024) :
    ∃ t1 t2, solve_sudoku puzzle s1 = some t1 ∧ solve_sudoku puzzle s2 = some t2 ∧
      (t1.map Prod.snd).sum = 1024 ∧ (t2.map Prod.snd).sum = 1024 := by
  obtain ⟨a1, b1, -⟩ := solve_sudoku_spec puzzle s1 (le_of_eq hlen)
  obtain ⟨a2, b2, -⟩ := solve_sudoku_spec puzzle s2 (le_of_eq hlen)
  exact ⟨_, _, a1, a2, by rw [b1, h1], by rw [b2, h2]⟩

/-- Witness for C9 at puzzle `[1,0,0,0]` and two 1024-shot sample lists. -/
theorem solve_sudoku_twice_independent_witness :
    ∃ t1 t2,
      solve_sudoku [PyVal.int 1, PyVal.int 0, PyVal.int 0, PyVal.int 0]
        (List.replicate 1024 (0 : Fin 16)) = some t1 ∧
      solve_sudoku [PyVal.int 1, PyVal.int 0, PyVal.int 0, PyVal.int 0]
        (List.replicate 1024 (5 : Fin 16)) = some t2 ∧
      (t1.map Prod.snd).sum = 1024 ∧ (t2.map Prod.snd).sum = 1024 :=
  solve_sudoku_twice_independent _ _ _ (by decide) (by decide)
    (List.length_replicate 1024 0) (List.length_replicate 1024 5)

/-- C10: whenever `initialize_sudoku_state` returns a circuit, that
circuit holds an X gate on qubit `i` exactly when position `i` of the
puzzle compares equal to the integer 1 under Python `==` (so `int 1` and
`bool true` qualify, while `2`, `-1` and strings do not and are not
treated as truthy). -/
theorem initialize_flag_eq_one_iff (puzzle : List PyVal) (c : QuantumCircuit)
    (h : initialize_sudoku_state puzzle = some c) :
    (∀ i, (hi : i < puzzle.length) →
      (Gate.x i ∈ c.gates ↔ pyEqOne puzzle[i] = true)) ∧
    pyEqOne (PyVal.int 1) = true ∧ pyEqOne (PyVal.bool true) = true ∧
    pyEqOne (PyVal.int 2) = false ∧ pyEqOne (PyVal.int (-1)) = false ∧
    (∀ s, pyEqOne (PyVal.str s) = false) := by
  have hg := initLoop_gates puzzle (QuantumCircuit.mk 4 0 []) c 0 h
  refine ⟨?_, rfl, rfl, rfl, rfl, fun s => rfl⟩
  intro i hi
  rw [hg]
  simp only [List.nil_append]
  constructor
  · intro hmem
    obtain ⟨p, hp, he⟩ := List.mem_map.mp hmem
    obtain ⟨hpe, hpy⟩ := List.mem_filter.mp hp
    injection he with hpi
    have hpmem : (i, p.2) ∈ puzzle.enum := by
      rw [← hpi]
      exact hpe
    have hgot : puzzle[i]? = some p.2 := List.mk_mem_enum_iff_getElem?.mp hpmem
    rw [List.getElem?_eq_getElem hi] at hgot
    injection hgot with hv
    rw [hv]
    exact hpy
  · intro hone
    apply List.mem_map.mpr
    refine ⟨(i, puzzle[i]), List.mem_filter.mpr ⟨?_, hone⟩, rfl⟩
    show (i, puzzle[i]) ∈ puzzle.enum
    exact List.mk_mem_enum_iff_getElem?.mpr (List.getElem?_eq_getElem hi)

/-- Witness for C10 at the puzzle `[2, −1, "a", 1]`: only position 3
gets an X gate. -/
theorem initialize_flag_eq_one_iff_witness :
    (∀ i, (hi : i < ([PyVal.int 2, PyVal.int (-1), PyVal.str "a",
          PyVal.int 1] : List PyVal).length) →
      (Gate.x i ∈ (QuantumCircuit.mk 4 0 [Gate.x 3]).gates ↔
        pyEqOne ([PyVal.int 2, PyVal.int (-1), PyVal.str "a",
          PyVal.int 1] : List PyVal)[i] = true)) ∧
    pyEqOne (PyVal.int 1) = true ∧ pyEqOne (PyVal.bool true) = true ∧
    pyEqOne (PyVal.int 2) = false ∧ pyEqOne (PyVal.int (-1)) = false ∧
    (∀ s, pyEqOne (PyVal.str s) = false) :=
  initialize_flag_eq_one_iff _ (QuantumCircuit.mk 4 0 [Gate.x 3]) (by decide)

end QuantumSudoku
